import Mathlib

/-!
Verification of the code-block extraction engine of `src/js/app.js`
(classes `CodeBlock` and `CodeExtractor`).

Modelling conventions.
JavaScript strings are modelled as `List Char`; `str.split('\n')` becomes
`splitLines`, `String.prototype.trim` becomes `trimJS` (restricted to the
ASCII whitespace characters space, tab, newline, carriage return, vertical
tab and form feed; the engine's inputs are text documents, so the exotic
Unicode space characters that JS `trim` also removes are not modelled),
`String.prototype.includes` becomes `hasSub`, `substring`/`slice` become
`List.take`/`List.drop`.  JS regular expressions are modelled by item
sequences (`PItem`: literal runs, single character classes, starred and
optional character classes, the only constructs the source patterns use;
a top-level alternation becomes a boolean disjunction of searches, which
is sound for the boolean `test`); `re.test(s)` (search anywhere) becomes
`searchItems`, patterns anchored with a plain leading caret become
`anchorItems` (match at position 0 only), and patterns whose leading
caret carries the multiline flag become `lineStartItems` (match at
position 0 or right after a line terminator).
Numbers are `Nat`/`Int`; the 32-bit signed truncation performed by the JS
bitwise operations in `generateHash` is made explicit by `toInt32`.
-/

set_option maxRecDepth 4096

/-! ## Basic string (List Char) utilities -/

/-- Backquote character (code 96), written via `Char.ofNat`. -/
def backq : Char := Char.ofNat 96

/-- Double-quote character (code 34). -/
def dquote : Char := Char.ofNat 34

/-- Single-quote character (code 39). -/
def squote : Char := Char.ofNat 39

/-- Left curly brace character (code 123). -/
def lbrace : Char := Char.ofNat 123

/-- Right curly brace character (code 125). -/
def rbrace : Char := Char.ofNat 125

/-- JS whitespace (`\s` class and `trim`), restricted to ASCII:
space, tab, newline, carriage return, vertical tab (11), form feed (12). -/
def isWsC (c : Char) : Bool :=
  c = ' ' || c = '\t' || c = '\n' || c = '\r' || c = Char.ofNat 11 || c = Char.ofNat 12

/-- JS line terminators, restricted to ASCII: newline and carriage return. -/
def isLineTermC (c : Char) : Bool := c = '\n' || c = '\r'

/-- JS `\w` word characters: ASCII letters, digits and underscore. -/
def isWordC (c : Char) : Bool :=
  ('a' ≤ c && c ≤ 'z') || ('A' ≤ c && c ≤ 'Z') || ('0' ≤ c && c ≤ '9') || c = '_'

/-- `String.prototype.trim`: drop whitespace from both ends. -/
def trimJS (l : List Char) : List Char :=
  ((l.dropWhile isWsC).reverse.dropWhile isWsC).reverse

/-- `str.split('\n')`: split into lines at newline characters.
`"" ↦ [""]`, `"a\nb" ↦ ["a","b"]`, `"a\n" ↦ ["a",""]`. -/
def splitLines : List Char → List (List Char)
  | [] => [[]]
  | c :: rest =>
    if c = '\n' then [] :: splitLines rest
    else
      match splitLines rest with
      | [] => [[c]]
      | l :: ls => (c :: l) :: ls

/-- `lines.join('\n')`. -/
def joinLines : List (List Char) → List Char
  | [] => []
  | [l] => l
  | l :: ls => l ++ '\n' :: joinLines ls

/-- Does `l` start with `p`?  (`String.prototype.startsWith`). -/
def hasPre : List Char → List Char → Bool
  | _, [] => true
  | [], _ :: _ => false
  | a :: l, b :: p => a = b && hasPre l p

/-- Does `l` contain `p` as a contiguous substring?
(`String.prototype.includes`). -/
def hasSub : List Char → List Char → Bool
  | [], p => hasPre [] p
  | l@(_ :: t), p => hasPre l p || hasSub t p

/-- Decimal digits of a natural number (auxiliary, fuel-driven). -/
def natDecAux : Nat → Nat → List Char
  | 0, _ => []
  | _, 0 => []
  | fuel + 1, n => natDecAux fuel (n / 10) ++ [Char.ofNat (48 + n % 10)]

/-- Decimal representation of a natural number (`Number.prototype.toString`). -/
def natDec (n : Nat) : List Char :=
  if n = 0 then ['0'] else natDecAux 32 n

/-- Lowercase hexadecimal digit for `n < 16`. -/
def hexDigit (n : Nat) : Char :=
  if n < 10 then Char.ofNat (48 + n) else Char.ofNat (87 + n)

/-- Hexadecimal digits of a natural number (auxiliary, fuel-driven). -/
def hexAux : Nat → Nat → List Char
  | 0, _ => []
  | _, 0 => []
  | fuel + 1, n => hexAux fuel (n / 16) ++ [hexDigit (n % 16)]

/-- Lowercase hexadecimal representation (`Number.prototype.toString(16)`). -/
def hexStr (n : Nat) : List Char :=
  if n = 0 then ['0'] else hexAux 32 n

/-- `String.prototype.padStart(k, '0')`. -/
def padZeros (k : Nat) (s : List Char) : List Char :=
  List.replicate (k - s.length) '0' ++ s

/-! ## Regular-expression matching

The source's patterns are sequences of literal runs and quantified
character classes (plus, for three of them, a top-level alternation).
They are modelled as lists of `PItem`; `matchItems its s` decides whether
some prefix of `s` is matched by the item sequence (existence semantics:
a starred class may consume any number of its characters, so the
greedy/lazy distinction of the source patterns, which only affects which
match is chosen, is irrelevant to the boolean `test`). -/

inductive PItem where
  | lit (w : List Char) : PItem
  | one (f : Char → Bool) : PItem
  | starC (f : Char → Bool) : PItem
  | optC (f : Char → Bool) : PItem

/-- Try `p` on `s`, on `s` minus one leading `f`-character, and so on as
long as leading `f`-characters remain: the semantics of a starred class
followed by the continuation `p`. -/
def tryDrops (p : List Char → Bool) (f : Char → Bool) : List Char → Bool
  | [] => p []
  | s@(c :: t) => p s || (f c && tryDrops p f t)

/-- Does some prefix of `s` match the item sequence? -/
def matchItems : List PItem → List Char → Bool
  | [], _ => true
  | .lit w :: rest, s => hasPre s w && matchItems rest (s.drop w.length)
  | .one f :: rest, s =>
    match s with
    | [] => false
    | c :: t => f c && matchItems rest t
  | .starC f :: rest, s => tryDrops (matchItems rest) f s
  | .optC f :: rest, s =>
    matchItems rest s ||
      (match s with
       | [] => false
       | c :: t => f c && matchItems rest t)

/-- `re.test(s)` for an unanchored pattern: a match may start anywhere. -/
def searchItems (its : List PItem) : List Char → Bool
  | [] => matchItems its []
  | s@(_ :: t) => matchItems its s || searchItems its t

/-- `re.test(s)` for a pattern anchored with a plain leading caret
(no multiline flag): the match must start at position 0. -/
def anchorItems (its : List PItem) (s : List Char) : Bool := matchItems its s

/-- Auxiliary for `lineStartItems`: try every position right after a line
terminator. -/
def lineStartAux (its : List PItem) : List Char → Bool
  | [] => false
  | c :: t => (isLineTermC c && matchItems its t) || lineStartAux its t

/-- `re.test(s)` for a pattern whose leading caret carries the multiline
flag: the match must start at position 0 or right after a line
terminator. -/
def lineStartItems (its : List PItem) (s : List Char) : Bool :=
  matchItems its s || lineStartAux its s

/-- The class `\s` as an item. -/
def wsOne : PItem := .one isWsC

/-- `\s*`. -/
def wsStarI : List PItem := [.starC isWsC]

/-- `\s+` (one mandatory whitespace character, then any number more). -/
def wsPlusI : List PItem := [wsOne, .starC isWsC]

/-- `\w+`. -/
def wordPlusI : List PItem := [.one isWordC, .starC isWordC]

/-- The JS dot: any character except a line terminator. -/
def dotC (c : Char) : Bool := !isLineTermC c

/-- `.*`. -/
def dotStarI : List PItem := [.starC dotC]

/-- A case-insensitive literal character (the `i` flag). -/
def ciOne (c : Char) : PItem := .one (fun d => d.toLower = c.toLower)

/-- A case-insensitive literal string (the `i` flag). -/
def ilitI (w : List Char) : List PItem := w.map ciOne

/-! ## Language Classifier (`CodeBlock.detectLanguage`, app.js lines 793-882)

Each entry pairs a language label with the ordered list of its regex
signatures, translated pattern by pattern from the `patterns` object.
JS `Object.entries` iterates string keys in insertion order, so the
candidate order is the source order: python, javascript, java, c, cpp,
html, css, sql, bash, dockerfile, json, yaml, xml.  The source computes a
lowercased copy of the content but tests the patterns against the
original content (`pattern.test(this.content)`), so only the `sql`
patterns (flagged `i`) are case-insensitive here.

Note on the first `bash` signature: the source line reads
`/#!/bin\/bash/`, whose second `/` terminates the regex literal early
(a JS syntax slip); the evident intent, a literal `#!/bin/bash`, is
modelled. -/

def pySig1 (s : List Char) : Bool :=
  searchItems ([.lit "def".data] ++ wsPlusI ++ wordPlusI ++ [.lit "(".data]) s

def pySig2 (s : List Char) : Bool :=
  searchItems ([.lit "import".data] ++ wsPlusI ++ wordPlusI) s

def pySig3 (s : List Char) : Bool :=
  searchItems ([.lit "from".data] ++ wsPlusI ++ wordPlusI ++ wsPlusI ++ [.lit "import".data]) s

def pySig4 (s : List Char) : Bool :=
  searchItems ([.lit "print".data] ++ wsStarI ++ [.lit "(".data]) s

def pySig5 (s : List Char) : Bool :=
  searchItems ([.lit "class".data] ++ wsPlusI ++ wordPlusI) s

def jsSig1 (s : List Char) : Bool :=
  searchItems ([.lit "function".data] ++ wsPlusI ++ wordPlusI ++ [.lit "(".data]) s

def jsSig2 (s : List Char) : Bool :=
  searchItems ([.lit "const".data] ++ wsPlusI ++ wordPlusI ++ wsStarI ++ [.lit "=".data]) s

def jsSig3 (s : List Char) : Bool :=
  searchItems ([.lit "let".data] ++ wsPlusI ++ wordPlusI ++ wsStarI ++ [.lit "=".data]) s

def jsSig4 (s : List Char) : Bool :=
  searchItems [.lit "console.log(".data] s

def jsSig5 (s : List Char) : Bool :=
  searchItems [.lit "document.".data] s

def javaSig1 (s : List Char) : Bool :=
  searchItems ([.lit "public".data] ++ wsPlusI ++ [.lit "class".data] ++ wsPlusI ++ wordPlusI) s

def javaSig2 (s : List Char) : Bool :=
  searchItems ([.lit "public".data] ++ wsPlusI ++ [.lit "static".data] ++ wsPlusI
    ++ [.lit "void".data] ++ wsPlusI ++ [.lit "main".data]) s

def javaSig3 (s : List Char) : Bool :=
  searchItems [.lit "System.out.print".data] s

def cSig1 (s : List Char) : Bool :=
  searchItems ([.lit "#include".data] ++ wsStarI ++ [.lit "<".data]) s

def cSig2 (s : List Char) : Bool :=
  searchItems ([.lit "int".data] ++ wsPlusI ++ [.lit "main".data] ++ wsStarI ++ [.lit "(".data]) s

def cSig3 (s : List Char) : Bool :=
  searchItems ([.lit "printf".data] ++ wsStarI ++ [.lit "(".data]) s

def cppSig1 (s : List Char) : Bool := cSig1 s

def cppSig2 (s : List Char) : Bool :=
  searchItems [.lit "std::".data] s

def cppSig3 (s : List Char) : Bool :=
  searchItems ([.lit "cout".data] ++ wsStarI ++ [.lit "<<".data]) s

def htmlSig1 (s : List Char) : Bool := searchItems [.lit "<html".data] s

def htmlSig2 (s : List Char) : Bool := searchItems [.lit "<div".data] s

def htmlSig3 (s : List Char) : Bool := searchItems [.lit "<body".data] s

def htmlSig4 (s : List Char) : Bool := searchItems [.lit "<!DOCTYPE".data] s

def cssSig1 (s : List Char) : Bool :=
  searchItems (wordPlusI ++ wsStarI
    ++ [.one (fun c => c = lbrace), .starC (fun c => c ≠ rbrace), .one (fun c => c = rbrace)]) s

def cssSig2 (s : List Char) : Bool := searchItems [.lit "@media".data] s

def cssSig3 (s : List Char) : Bool :=
  searchItems ([.lit ".".data, .one (fun c => isWordC c || c = '-'), .starC (fun c => isWordC c || c = '-')]
    ++ wsStarI ++ [.one (fun c => c = lbrace)]) s

def sqlSig1 (s : List Char) : Bool :=
  searchItems (ilitI "SELECT".data ++ wsPlusI) s

def sqlSig2 (s : List Char) : Bool :=
  searchItems (ilitI "FROM".data ++ wsPlusI) s

def sqlSig3 (s : List Char) : Bool :=
  searchItems (ilitI "WHERE".data ++ wsPlusI) s

def sqlSig4 (s : List Char) : Bool :=
  searchItems (ilitI "INSERT".data ++ wsPlusI ++ ilitI "INTO".data) s

def bashSig1 (s : List Char) : Bool :=
  searchItems [.lit "#!/bin/bash".data] s

def bashSig2 (s : List Char) : Bool :=
  searchItems ([.lit "echo".data] ++ wsPlusI) s

def bashSig3 (s : List Char) : Bool :=
  searchItems ([.lit "$".data] ++ wordPlusI) s

def bashSig4 (s : List Char) : Bool :=
  searchItems ([.lit "if".data] ++ wsStarI ++ [.lit "[".data] ++ wsStarI) s

def dockSig1 (s : List Char) : Bool :=
  searchItems ([.lit "FROM".data] ++ wsPlusI ++ wordPlusI) s

def dockSig2 (s : List Char) : Bool :=
  searchItems ([.lit "RUN".data] ++ wsPlusI) s

def dockSig3 (s : List Char) : Bool :=
  searchItems ([.lit "COPY".data] ++ wsPlusI) s

def dockSig4 (s : List Char) : Bool :=
  searchItems ([.lit "WORKDIR".data] ++ wsPlusI) s

def dockSig5 (s : List Char) : Bool :=
  searchItems ([.lit "EXPOSE".data] ++ wsPlusI) s

def dockSig6 (s : List Char) : Bool :=
  searchItems ([.lit "CMD".data] ++ wsStarI ++ [.lit "[".data]) s

def jsonSig1 (s : List Char) : Bool :=
  anchorItems (wsStarI ++ [.one (fun c => c = lbrace)]) s

def jsonSig2 (s : List Char) : Bool :=
  anchorItems (wsStarI ++ [.lit "[".data]) s

def jsonSig3 (s : List Char) : Bool :=
  searchItems ([.one (fun c => c = dquote)] ++ wordPlusI ++ [.one (fun c => c = dquote), .lit ":".data] ++ wsStarI) s

def yamlSig1 (s : List Char) : Bool :=
  lineStartItems (wordPlusI ++ [.lit ":".data]) s

def yamlSig2 (s : List Char) : Bool :=
  lineStartItems (wsStarI ++ [.lit "-".data] ++ wsPlusI ++ wordPlusI) s

def xmlSig1 (s : List Char) : Bool :=
  searchItems [.lit "<?xml".data] s

def xmlSig2 (s : List Char) : Bool :=
  searchItems ([.lit "<".data] ++ wordPlusI ++ dotStarI ++ [.lit ">".data] ++ dotStarI
    ++ [.lit "</".data] ++ wordPlusI ++ [.lit ">".data]) s

/-- The ordered candidate table of `detectLanguage`:
(label, ordered signature list), in source insertion order. -/
def langTable : List (List Char × List (List Char → Bool)) :=
  [ ("python".data, [pySig1, pySig2, pySig3, pySig4, pySig5]),
    ("javascript".data, [jsSig1, jsSig2, jsSig3, jsSig4, jsSig5]),
    ("java".data, [javaSig1, javaSig2, javaSig3]),
    ("c".data, [cSig1, cSig2, cSig3]),
    ("cpp".data, [cppSig1, cppSig2, cppSig3]),
    ("html".data, [htmlSig1, htmlSig2, htmlSig3, htmlSig4]),
    ("css".data, [cssSig1, cssSig2, cssSig3]),
    ("sql".data, [sqlSig1, sqlSig2, sqlSig3, sqlSig4]),
    ("bash".data, [bashSig1, bashSig2, bashSig3, bashSig4]),
    ("dockerfile".data, [dockSig1, dockSig2, dockSig3, dockSig4, dockSig5, dockSig6]),
    ("json".data, [jsonSig1, jsonSig2, jsonSig3]),
    ("yaml".data, [yamlSig1, yamlSig2]),
    ("xml".data, [xmlSig1, xmlSig2]) ]

/-- Does any signature of the candidate entry match the content? -/
def anySig (e : List Char × List (List Char → Bool)) (c : List Char) : Bool :=
  e.2.any (fun p => p c)

/-- The classifier loop: first candidate any of whose signatures matches. -/
def detectLangGo (c : List Char) : List (List Char × List (List Char → Bool)) → List Char
  | [] => "txt".data
  | e :: rest => if anySig e c then e.1 else detectLangGo c rest

/-- `CodeBlock.detectLanguage` (app.js 793-882): iterate the candidate
table in order; the first candidate with a matching signature wins;
fall back to `txt`. -/
def detectLanguage (c : List Char) : List Char := detectLangGo c langTable

/-! ## Code-likelihood heuristic (`looksLikeCode`, app.js 993-1016) -/

/-- The class `[a-zA-Z-]` of the CSS-property signature. -/
def cssNameC (c : Char) : Bool := (('a' ≤ c && c ≤ 'z') || ('A' ≤ c && c ≤ 'Z')) || c = '-'


/-- Signature 1: function-call syntax `[a-zA-Z_]\w*\s*\(`. -/
def codeSig1 (s : List Char) : Bool :=
  searchItems ([.one (fun c => isWordC c && !('0' ≤ c && c ≤ '9')), .starC isWordC]
    ++ wsStarI ++ [.lit "(".data]) s

/-- Signature 2: assignment syntax `[a-zA-Z_]\w*\s*=`. -/
def codeSig2 (s : List Char) : Bool :=
  searchItems ([.one (fun c => isWordC c && !('0' ≤ c && c ≤ '9')), .starC isWordC]
    ++ wsStarI ++ [.lit "=".data]) s

/-- Signature 3: brace pair `\{[^}]*\}`. -/
def codeSig3 (s : List Char) : Bool :=
  searchItems [.one (fun c => c = lbrace), .starC (fun c => c ≠ rbrace), .one (fun c => c = rbrace)] s

/-- Signature 4: quoted string literal `["\'][^"\']*["\']`. -/
def codeSig4 (s : List Char) : Bool :=
  searchItems [.one (fun c => c = dquote || c = squote),
    .starC (fun c => c ≠ dquote && c ≠ squote),
    .one (fun c => c = dquote || c = squote)] s

/-- Signature 5: comments `\/\/.*|\/\*.*\*\/|#.*`. -/
def codeSig5 (s : List Char) : Bool :=
  searchItems ([.lit "//".data] ++ dotStarI) s
    || searchItems ([.lit "/*".data] ++ dotStarI ++ [.lit "*/".data]) s
    || searchItems ([.lit "#".data] ++ dotStarI) s

/-- Signature 6: member access `\w+\.\w+`. -/
def codeSig6 (s : List Char) : Bool :=
  searchItems (wordPlusI ++ [.lit ".".data] ++ wordPlusI) s

/-- Signature 7: control structures `if\s*\(|while\s*\(|for\s*\(`. -/
def codeSig7 (s : List Char) : Bool :=
  searchItems ([.lit "if".data] ++ wsStarI ++ [.lit "(".data]) s
    || searchItems ([.lit "while".data] ++ wsStarI ++ [.lit "(".data]) s
    || searchItems ([.lit "for".data] ++ wsStarI ++ [.lit "(".data]) s

/-- Signature 8: HTML tags `<\/?\w+[^>]*>`. -/
def codeSig8 (s : List Char) : Bool :=
  searchItems ([.lit "<".data, .optC (fun c => c = '/')] ++ wordPlusI
    ++ [.starC (fun c => c ≠ '>'), .lit ">".data]) s

/-- Signature 9: CSS property `[a-zA-Z-]+:\s*[^;]+;`. -/
def codeSig9 (s : List Char) : Bool :=
  searchItems ([.one cssNameC, .starC cssNameC, .lit ":".data] ++ wsStarI
    ++ [.one (fun c => c ≠ ';'), .starC (fun c => c ≠ ';'), .lit ";".data]) s

/-- The fixed ordered list of code-likelihood signature categories. -/
def codeSigList : List (List Char → Bool) :=
  [codeSig1, codeSig2, codeSig3, codeSig4, codeSig5, codeSig6, codeSig7, codeSig8, codeSig9]

/-- Number of code-likelihood signature categories matching the content. -/
def codeSigCount (s : List Char) : Nat :=
  (codeSigList.filter (fun p => p s)).length

/-- `CodeExtractor.looksLikeCode` (app.js 993-1016): at least 2 distinct
signature categories match. -/
def looksLikeCode (s : List Char) : Bool := 2 ≤ codeSigCount s

/-! ## Hash and CodeBlock (app.js 785-791, 901-912) -/

/-- Truncate an integer to a 32-bit signed integer (the effect of the JS
bitwise operations `<<` and `&` on their operands and result). -/
def toInt32 (n : Int) : Int :=
  let m := n % 4294967296
  if m < 2147483648 then m else m - 4294967296

/-- One step of the hash loop:
`hash = ((hash << 5) - hash) + charCode; hash = hash & hash`. -/
def hashStep (h : Int) (c : Char) : Int :=
  toInt32 (toInt32 (h * 32) - h + (c.toNat : Int))

/-- The hash loop.  JS evaluates the running value eagerly at every
iteration; the nested constructor matches force the same eager
evaluation here (they are the identity on the value). -/
def hashFold (h : Int) : List Char → Int
  | [] => h
  | c :: t =>
    match hashStep h c with
    | .ofNat 0 => hashFold (.ofNat 0) t
    | .ofNat (n + 1) => hashFold (.ofNat (n + 1)) t
    | .negSucc 0 => hashFold (.negSucc 0) t
    | .negSucc (n + 1) => hashFold (.negSucc (n + 1)) t

/-- `CodeBlock.generateHash` (app.js 901-912): 32-bit rolling hash,
rendered as `Math.abs(hash).toString(16).padStart(8,'0').slice(0,8)`;
the empty string short-circuits to `"0".padStart(8,'0')`. -/
def generateHash (content : List Char) : List Char :=
  if content.length = 0 then padZeros 8 (hexStr 0)
  else (padZeros 8 (hexStr (hashFold 0 content).natAbs)).take 8

/-- One detected code span (class `CodeBlock`, app.js 785-791).
`startLine` carries whatever line number the constructing scanner passed
(the constructor's default is 0).  The constructor trims the content,
resolves the language (`language || this.detectLanguage()`: an absent or
empty tag falls back to the classifier on the trimmed content) and hashes
the trimmed content. -/
structure CodeBlock where
  content : List Char
  language : List Char
  startLine : Nat
  hash : List Char
deriving DecidableEq, Repr, Inhabited

/-- The `CodeBlock` constructor: `new CodeBlock(raw, tag, startLine)`. -/
def mkCodeBlock (raw : List Char) (tag : Option (List Char)) (startLine : Nat) : CodeBlock :=
  let c := trimJS raw
  { content := c
    language :=
      match tag with
      | some t => if t = [] then detectLanguage c else t
      | none => detectLanguage c
    startLine := startLine
    hash := generateHash c }

/-- `CodeBlock.getFileExtension` (app.js 884-899): language → extension
lookup with `.txt` default. -/
def getFileExtension (lang : List Char) : List Char :=
  if lang = "python".data then ".py".data
  else if lang = "javascript".data then ".js".data
  else if lang = "java".data then ".java".data
  else if lang = "c".data then ".c".data
  else if lang = "cpp".data then ".cpp".data
  else if lang = "html".data then ".html".data
  else if lang = "css".data then ".css".data
  else if lang = "sql".data then ".sql".data
  else if lang = "bash".data then ".sh".data
  else if lang = "dockerfile".data then ".dockerfile".data
  else if lang = "json".data then ".json".data
  else if lang = "yaml".data then ".yml".data
  else if lang = "xml".data then ".xml".data
  else if lang = "txt".data then ".txt".data
  else ".txt".data

/-! ## Fenced-Block Scanner (`extractMarkdownCodeBlocks`, app.js 926-947)

The scanner repeatedly executes the global regex
triple-backquote `(\w+)?` newline `([\s\S]*?)` newline triple-backquote
against the document.  A match at position `p` requires the three
backquotes, then the maximal (possibly empty) run of word characters as
the optional language tag (no shorter run can succeed, since the next
character after a shortened run is a word character, not the required
newline), then a literal newline, then the lazily minimal body up to the
first occurrence of newline-plus-three-backquotes.  `exec` resumes at the
end of the previous match. -/

/-- One fenced-scanner raw match: (match index, optional tag, body). -/
structure FenceMatch where
  idx : Nat
  tag : Option (List Char)
  body : List Char
deriving DecidableEq, Repr, Inhabited

/-- Find the first occurrence of newline-backquote-backquote-backquote;
return the body before it and the remainder after it. -/
def findFenceClose : List Char → Option (List Char × List Char)
  | [] => none
  | c :: rest =>
    if c = '\n' && hasPre rest [backq, backq, backq] then
      some ([], rest.drop 3)
    else
      match findFenceClose rest with
      | some (pre, r) => some (c :: pre, r)
      | none => none

/-- Try to match the fenced-block pattern at the start of `s`; on success
return the tag, the body, and the total match length. -/
def matchFenceAt (s : List Char) : Option (Option (List Char) × List Char × Nat) :=
  match s with
  | b1 :: b2 :: b3 :: rest =>
    if b1 = backq && b2 = backq && b3 = backq then
      let w := rest.takeWhile isWordC
      match rest.drop w.length with
      | '\n' :: afterNl =>
        match findFenceClose afterNl with
        | some (body, _) =>
          some (if w = [] then none else some w, body, 3 + w.length + 1 + body.length + 4)
        | none => none
      | _ => none
    else none
  | _ => none

/-- All positions (with their suffixes) where the fenced-block pattern
matches, in position order: (position, tag, body, match length). -/
def fenceCandidates : List Char → Nat → List (Nat × Option (List Char) × List Char × Nat)
  | [], _ => []
  | s@(_ :: t), i =>
    (match matchFenceAt s with
     | some (tag, body, len) => [(i, tag, body, len)]
     | none => []) ++ fenceCandidates t (i + 1)

/-- The `exec` loop over the position-ordered candidates: `exec` returns
the leftmost match starting at or after `lastIndex` and then advances
`lastIndex` to the end of that match, so successive matches never
overlap. -/
def execFilter (lastIndex : Nat) : List (Nat × Option (List Char) × List Char × Nat) → List FenceMatch
  | [] => []
  | (i, tag, body, len) :: rest =>
    if lastIndex ≤ i then
      { idx := i, tag := tag, body := body } :: execFilter (i + len) rest
    else execFilter lastIndex rest

/-- All raw matches of the fenced-block regex, in scan order. -/
def scanFenced (s : List Char) : List FenceMatch := execFilter 0 (fenceCandidates s 0)

/-- The `CodeBlock` built from one fenced match: the start line is the
length of `content.substring(0, match.index).split('\n')`. -/
def fencedBlockOf (s : List Char) (m : FenceMatch) : CodeBlock :=
  mkCodeBlock m.body m.tag (splitLines (s.take m.idx)).length

/-- `CodeExtractor.extractMarkdownCodeBlocks` (app.js 926-947): keep the
matches whose trimmed body is non-empty and longer than 20 characters. -/
def extractMarkdownCodeBlocks (s : List Char) : List CodeBlock :=
  (scanFenced s).filterMap (fun m =>
    if trimJS m.body ≠ [] ∧ (trimJS m.body).length > 20 then
      some (fencedBlockOf s m)
    else none)

/-! ## Indented-Block Scanner (`extractIndentedCodeBlocks`, app.js 950-991) -/

/-- The line test of the indented scanner: indented by four spaces or a
leading tab, the regex 4-spaces-or-tab anchored at line start. -/
def isIndentedLine (l : List Char) : Bool :=
  hasPre l [' ', ' ', ' ', ' '] || hasPre l ['\t']

/-- Termination of an indented run (both the in-loop termination and the
end-of-document flush run the same checks): the run must contain a
non-blank line, and its trimmed join must be non-empty, span more than 3
physical lines, exceed 50 characters and look like code. -/
def finishRun (run : List (List Char)) (start : Nat) : List CodeBlock :=
  if 0 < run.length ∧ run.any (fun l => !(trimJS l).isEmpty) then
    let bc := trimJS (joinLines run)
    if bc ≠ [] ∧ run.length > 3 ∧ bc.length > 50 then
      if looksLikeCode bc then [mkCodeBlock bc none start] else []
    else []
  else []

/-- The scanner loop: walk the lines with their 0-based index `i`,
accumulating the current run; an indented line extends (or starts) the
run, a blank line extends a non-empty run, anything else terminates the
run.  `currentStart` is set to `i` when a run starts and is otherwise
left alone (matching the JS variable). -/
def indentAux : List (List Char) → Nat → List (List Char) → Nat → List CodeBlock
  | [], _, run, start => finishRun run start
  | l :: rest, i, run, start =>
    if isIndentedLine l ∨ (trimJS l = [] ∧ 0 < run.length) then
      indentAux rest (i + 1) (run ++ [l]) (if run.length = 0 then i else start)
    else
      finishRun run start ++ indentAux rest (i + 1) [] start

/-- `CodeExtractor.extractIndentedCodeBlocks` (app.js 950-991). -/
def extractIndentedCodeBlocks (content : List Char) : List CodeBlock :=
  indentAux (splitLines content) 0 [] 0

/-! ## Deduplicator and Block Extractor (`extractCodeBlocks`, app.js 1018-1045) -/

/-- The duplicate test: some already-collected block lies within 5 lines
and its content contains the first 100 characters of the indented
block's content. -/
def isDupOf (acc : List CodeBlock) (b : CodeBlock) : Bool :=
  acc.any (fun e =>
    decide (Nat.dist b.startLine e.startLine < 5) && hasSub e.content (b.content.take 100))

/-- The dedup loop of `extractCodeBlocks`: fold the indented blocks over
the accumulated list (which starts as the fenced blocks), appending each
non-duplicate. -/
def dedupLoop (acc : List CodeBlock) : List CodeBlock → List CodeBlock
  | [] => acc
  | b :: rest =>
    if isDupOf acc b then dedupLoop acc rest
    else dedupLoop (acc ++ [b]) rest

/-- The blocks the dedup loop appends (the retained indented blocks). -/
def retainedIndented (acc : List CodeBlock) : List CodeBlock → List CodeBlock
  | [] => []
  | b :: rest =>
    if isDupOf acc b then retainedIndented acc rest
    else b :: retainedIndented (acc ++ [b]) rest

/-- `CodeExtractor.extractCodeBlocks` (app.js 1018-1045): fenced blocks
first, then the non-duplicate indented blocks. -/
def extractCodeBlocks (s : List Char) : List CodeBlock :=
  dedupLoop (extractMarkdownCodeBlocks s) (extractIndentedCodeBlocks s)

/-! ## Topic derivation (`generateTopicName`, app.js 1047-1068)

The four title patterns have the shape: line-start anchor (multiline),
a literal prefix (one hash mark, two hash marks, `Title:`, `Subject:`),
a whitespace quantifier (`\s+` for the headings, `\s*` for the other
two), then the capture `(.+)$`.  `String.prototype.match` returns the
leftmost match; the leading anchor restricts candidate start positions
to 0 and any position right after a line terminator.  At a given start,
the whitespace run is consumed greedily and backtracked until `(.+)$`
can match; `(.+)$` succeeds exactly when the next character exists and
is not a line terminator, capturing up to the end of that line. -/

/-- Try `(.+)$` after `k` consumed whitespace characters of `r1`. -/
def tryCapture (r1 : List Char) (k : Nat) : Option (List Char) :=
  match r1.drop k with
  | [] => none
  | c :: _ =>
    if isLineTermC c then none
    else some ((r1.drop k).takeWhile (fun d => !isLineTermC d))

/-- Greedy backtracking over the consumed-whitespace length, from `k`
down to `low` (1 for `\s+`, 0 for `\s*`). -/
def backGo (r1 : List Char) (low : Nat) : Nat → Option (List Char)
  | 0 => if low = 0 then tryCapture r1 0 else none
  | k + 1 =>
    if k + 1 < low then none
    else
      match tryCapture r1 (k + 1) with
      | some cap => some cap
      | none => backGo r1 low k

/-- Match one title pattern at a line-start position (`s` is the suffix
of the document from that position). -/
def matchTitleAt (pre : List Char) (wsReq : Bool) (s : List Char) : Option (List Char) :=
  if hasPre s pre then
    let r1 := s.drop pre.length
    backGo r1 (if wsReq then 1 else 0) (r1.takeWhile isWsC).length
  else none

/-- Scan the positions right after each line terminator, left to right. -/
def topicScanAux (pre : List Char) (wsReq : Bool) : List Char → Option (List Char)
  | [] => none
  | c :: rest =>
    if isLineTermC c then
      match matchTitleAt pre wsReq rest with
      | some cap => some cap
      | none => topicScanAux pre wsReq rest
    else topicScanAux pre wsReq rest

/-- `content.match(pattern)` for one title pattern: leftmost match,
candidate start positions are 0 and every position after a line
terminator. -/
def titleMatch (pre : List Char) (wsReq : Bool) (s : List Char) : Option (List Char) :=
  match matchTitleAt pre wsReq s with
  | some cap => some cap
  | none => topicScanAux pre wsReq s

/-- Characters kept by `replace(/[^\w\s-]/g, '')`: word characters,
whitespace and hyphens survive. -/
def keepTopicChar (c : Char) : Bool := isWordC c || isWsC c || c = '-'

/-- Auxiliary for `collapseWs`: the flag records whether the previous
character belonged to a whitespace run already replaced. -/
def collapseWsAux : Bool → List Char → List Char
  | _, [] => []
  | prevWs, c :: rest =>
    if isWsC c then
      if prevWs then collapseWsAux true rest
      else '_' :: collapseWsAux true rest
    else c :: collapseWsAux false rest

/-- `replace(/\s+/g, '_')`: every maximal whitespace run becomes one
underscore. -/
def collapseWs (l : List Char) : List Char := collapseWsAux false l

/-- The post-processing of a matched title: strip the characters of the
class complementary to word/whitespace/hyphen, trim, collapse whitespace
runs to underscores, truncate to 50 characters. -/
def processTopic (cap : List Char) : List Char :=
  (collapseWs (trimJS (cap.filter keepTopicChar))).take 50

/-- `fileName.replace(/\.[^\/.]+$/, "")`: remove a final dot followed by
one or more characters none of which is a slash or a dot. -/
def stripExtension (name : List Char) : List Char :=
  let r := name.reverse
  let run := r.takeWhile (fun c => c ≠ '.' && c ≠ '/')
  if run ≠ [] ∧ hasPre (r.drop run.length) ['.'] then
    (r.drop (run.length + 1)).reverse
  else name

/-- The ordered title patterns: (literal prefix, whitespace required). -/
def titlePatternList : List (List Char × Bool) :=
  [("#".data, true), ("##".data, true), ("Title:".data, false), ("Subject:".data, false)]

/-- First title pattern (in priority order) that matches, with its
captured text. -/
def topicGo (content : List Char) : List (List Char × Bool) → Option (List Char)
  | [] => none
  | (pre, wsReq) :: rest =>
    match titleMatch pre wsReq content with
    | some cap => some cap
    | none => topicGo content rest

/-- `CodeExtractor.generateTopicName` (app.js 1047-1068). -/
def generateTopicName (fileName content : List Char) : List Char :=
  match topicGo content titlePatternList with
  | some cap => processTopic cap
  | none =>
    let base := stripExtension fileName
    if base = [] then "unknown_topic".data else base

/-! ## Batch state and `processFile` (app.js 914-1139)

`processFile` reads the document (an external, fallible step, modelled as
an `Except` argument), extracts the blocks, and either reports the
no-blocks message, or builds the per-block file descriptors and metadata
and updates the statistics.  The `processedAt` metadata field is the
external wall clock (`new Date().toISOString()`) and is not modelled. -/

/-- The extractor statistics (`this.stats`).  The two JS `Set`s are
modelled as insertion-ordered duplicate-free lists. -/
structure Stats where
  filesProcessed : Nat
  codeBlocksFound : Nat
  languagesDetected : List (List Char)
  topicsCreated : List (List Char)
deriving DecidableEq, Repr

/-- `Set.prototype.add`: append if absent. -/
def addToSet (s : List (List Char)) (x : List Char) : List (List Char) :=
  if x ∈ s then s else s ++ [x]

/-- The statistics at construction and after `reset()`. -/
def initialStats : Stats :=
  { filesProcessed := 0, codeBlocksFound := 0, languagesDetected := [], topicsCreated := [] }

/-- One per-block file descriptor pushed onto `extractedFiles`. -/
structure ExtractedFile where
  fileName : List Char
  content : List Char
  language : List Char
  lines : Nat
  hash : List Char
  extension : List Char
deriving DecidableEq, Repr, Inhabited

/-- The descriptor built for the block at 1-based index `index`. -/
def mkExtractedFile (index : Nat) (b : CodeBlock) : ExtractedFile :=
  let fn :=
    if b.language ≠ [] ∧ b.language ≠ "txt".data then
      "code_".data ++ padZeros 2 (natDec index) ++ "_".data ++ b.language
        ++ "_".data ++ b.hash ++ getFileExtension b.language
    else
      "code_".data ++ padZeros 2 (natDec index) ++ "_".data ++ b.hash
        ++ getFileExtension b.language
  { fileName := fn
    content := b.content
    language := b.language
    lines := (splitLines b.content).length
    hash := b.hash
    extension := getFileExtension b.language }

/-- The descriptor loop of `processFile`, carried out with the running
0-based index. -/
def buildFilesAux (i : Nat) : List CodeBlock → List ExtractedFile
  | [] => []
  | b :: rest => mkExtractedFile (i + 1) b :: buildFilesAux (i + 1) rest

/-- All per-block descriptors, index-aligned with the block list. -/
def buildFiles (blocks : List CodeBlock) : List ExtractedFile := buildFilesAux 0 blocks

/-- One entry of the metadata `codeFiles` summary. -/
structure CodeFileMeta where
  fileName : List Char
  language : List Char
  lines : Nat
  hash : List Char
deriving DecidableEq, Repr, Inhabited

/-- The per-document metadata record (without the external timestamp). -/
structure Metadata where
  sourceFile : List Char
  topic : List Char
  totalBlocks : Nat
  codeFiles : List CodeFileMeta
deriving DecidableEq, Repr, Inhabited

/-- The successful return value of `processFile`. -/
structure ExtractionOk where
  topic : List Char
  blocksExtracted : Nat
  files : List ExtractedFile
  metadata : Metadata
deriving DecidableEq, Repr, Inhabited

/-- The three possible return records of `processFile`. -/
inductive ProcessResult where
  | ok (r : ExtractionOk)
  | noBlocks (message : List Char)
  | err (message : List Char)
deriving DecidableEq, Repr

/-- `CodeExtractor.processFile` (app.js 1070-1139).  The document read is
the only fallible step and happens before anything else; a read failure
is caught and returned as the error record.  The statistics are threaded
explicitly: the function returns the updated statistics together with
the result record. -/
def processFile (fileName : List Char) (readResult : Except (List Char) (List Char))
    (st : Stats) : ProcessResult × Stats :=
  match readResult with
  | .error e => (.err ("Failed to process file: ".data ++ e), st)
  | .ok content =>
    let codeBlocks := extractCodeBlocks content
    if codeBlocks.length = 0 then (.noBlocks ("No code blocks found".data), st)
    else
      let topicName := generateTopicName fileName content
      let extractedFiles := buildFiles codeBlocks
      let st1 := { st with
        languagesDetected :=
          codeBlocks.foldl (fun acc (b : CodeBlock) => addToSet acc b.language) st.languagesDetected }
      let md : Metadata := {
        sourceFile := fileName
        topic := topicName
        totalBlocks := codeBlocks.length
        codeFiles := extractedFiles.map (fun (f : ExtractedFile) =>
          { fileName := f.fileName, language := f.language, lines := f.lines, hash := f.hash }) }
      let st2 := { st1 with
        filesProcessed := st1.filesProcessed + 1
        codeBlocksFound := st1.codeBlocksFound + codeBlocks.length
        topicsCreated := addToSet st1.topicsCreated topicName }
      (.ok { topic := topicName, blocksExtracted := codeBlocks.length,
             files := extractedFiles, metadata := md }, st2)

/-- Projection used by concrete witnesses: the files of a successful
result. -/
def ProcessResult.getOk : ProcessResult → Option ExtractionOk
  | .ok r => some r
  | _ => none

/-! ## General lemmas about the dedup loop -/

/-- The dedup loop returns the accumulated list followed by exactly the
blocks it appends. -/
theorem dedupLoop_eq_append (l : List CodeBlock) :
    ∀ acc, dedupLoop acc l = acc ++ retainedIndented acc l := by
  induction l with
  | nil => intro acc; simp [dedupLoop, retainedIndented]
  | cons b rest ih =>
    intro acc
    by_cases h : isDupOf acc b = true
    · simp [dedupLoop, retainedIndented, h, ih]
    · simp only [Bool.not_eq_true] at h
      simp [dedupLoop, retainedIndented, h, ih]

/-- The retained indented blocks are a sublist of the indented blocks, in
order. -/
theorem retainedIndented_sublist (l : List CodeBlock) :
    ∀ acc, (retainedIndented acc l).Sublist l := by
  induction l with
  | nil => intro acc; simp [retainedIndented]
  | cons b rest ih =>
    intro acc
    by_cases h : isDupOf acc b = true
    · simp only [retainedIndented, h, if_pos]
      exact (ih acc).cons b
    · simp only [Bool.not_eq_true] at h
      simp only [retainedIndented, h, Bool.false_eq_true, if_false]
      exact (ih (acc ++ [b])).cons₂ b

/-- Every retained indented block fails the duplicate test against every
block of the initial accumulator (in particular against every fenced
block). -/
theorem retainedIndented_not_dup (l : List CodeBlock) :
    ∀ acc f b, f ∈ acc → b ∈ retainedIndented acc l →
      (decide (Nat.dist b.startLine f.startLine < 5)
        && hasSub f.content (b.content.take 100)) = false := by
  induction l with
  | nil => intro acc f b _ hb; simp [retainedIndented] at hb
  | cons x rest ih =>
    intro acc f b hf hb
    by_cases h : isDupOf acc x = true
    · simp only [retainedIndented, h, if_pos] at hb
      exact ih acc f b hf hb
    · simp only [Bool.not_eq_true] at h
      simp only [retainedIndented, h, Bool.false_eq_true, if_false, List.mem_cons] at hb
      rcases hb with rfl | hb
      · by_contra hG
        rw [Bool.not_eq_false] at hG
        have hdup : isDupOf acc b = true := by
          simp only [isDupOf]
          exact List.any_eq_true.mpr ⟨f, hf, hG⟩
        rw [h] at hdup
        exact Bool.false_ne_true hdup
      · exact ih (acc ++ [x]) f b (List.mem_append_left _ hf) hb

/-- Claim C5: for every document, the Block Extractor returns exactly the
fenced blocks in scan order, followed by the retained (non-duplicate)
indented blocks in scan order; every fenced block precedes every
indented block in the returned sequence. -/
theorem C5_extractor_order (s : List Char) :
    extractCodeBlocks s =
      extractMarkdownCodeBlocks s
        ++ retainedIndented (extractMarkdownCodeBlocks s) (extractIndentedCodeBlocks s)
    ∧ (retainedIndented (extractMarkdownCodeBlocks s)
        (extractIndentedCodeBlocks s)).Sublist (extractIndentedCodeBlocks s) := by
  exact ⟨dedupLoop_eq_append _ _, retainedIndented_sublist _ _⟩

/-- Claim C4: the Block Extractor's output never contains an indented
block `b` for which some fenced block `f` satisfies both
`|b.startLine - f.startLine| < 5` and `f.content` contains the first 100
characters of `b.content`. -/
theorem C4_no_duplicate_survives (s : List Char) (b f : CodeBlock)
    (hb : b ∈ retainedIndented (extractMarkdownCodeBlocks s) (extractIndentedCodeBlocks s))
    (hf : f ∈ extractMarkdownCodeBlocks s) :
    ¬(Nat.dist b.startLine f.startLine < 5 ∧ hasSub f.content (b.content.take 100) = true) := by
  intro ⟨h1, h2⟩
  have := retainedIndented_not_dup (extractIndentedCodeBlocks s)
    (extractMarkdownCodeBlocks s) f b hf hb
  rw [h2, decide_eq_true h1] at this
  simp at this

/-! ## Claims C10, C1 and the C4 witness -/

/-- Claim C10: if reading a document's text fails, `processFile` returns
the error record and the statistics are left exactly unchanged — the
read happens before any statistics mutation. -/
theorem C10_read_failure_atomic (fn e : List Char) (st : Stats) :
    processFile fn (.error e) st = (.err ("Failed to process file: ".data ++ e), st) := rfl

/-- Counterexample to claim C1 as stated: processing the zero-block
document `"hello world"` does not increment `filesProcessed`; the
counter stays 0 instead of becoming 1. -/
theorem C1_counterexample :
    extractCodeBlocks "hello world".data = []
    ∧ (processFile "h.txt".data (.ok "hello world".data) initialStats).2.filesProcessed = 0
    ∧ (processFile "h.txt".data (.ok "hello world".data) initialStats).2.filesProcessed
        ≠ initialStats.filesProcessed + 1 := by
  refine ⟨by decide, by decide, by decide⟩

/-- Claim C1, amended: a document whose extraction yields zero code
blocks produces the no-blocks message and leaves the whole `Stats`
object unchanged — `filesProcessed` is not incremented, and
`codeBlocksFound`, `languagesDetected`, `topicsCreated` keep their prior
values. -/
theorem C1_amended_zero_blocks_stats_unchanged (fn content : List Char) (st : Stats)
    (h : extractCodeBlocks content = []) :
    processFile fn (.ok content) st = (.noBlocks ("No code blocks found".data), st) := by
  simp [processFile, h]

/-- Witness for the amended claim C1 at the concrete zero-block document
`"hello world"`. -/
theorem C1_amended_witness :
    extractCodeBlocks "hello world".data = []
    ∧ processFile "h.txt".data (.ok "hello world".data) initialStats
        = (.noBlocks ("No code blocks found".data), initialStats) :=
  ⟨by decide, C1_amended_zero_blocks_stats_unchanged "h.txt".data "hello world".data initialStats (by decide)⟩

/-- Concrete document for the C4 witness: one tagged fenced block on line
1 and one indented run starting at line index 6, five lines away. -/
def docC4 : List Char :=
  "```python\nimport sqlite3 and more stuff\n```\npa\npb\npc\n    x = fn(1000)\n    y = fn(2000)\n    z = fn(3000)\n    w = fn(4000)\nend".data

/-- The fenced block extracted from `docC4`. -/
def fBlkC4 : CodeBlock :=
  { content := "import sqlite3 and more stuff".data, language := "python".data,
    startLine := 1, hash := "2bc099c6".data }

/-- The retained indented block extracted from `docC4`. -/
def iBlkC4 : CodeBlock :=
  { content := "x = fn(1000)\n    y = fn(2000)\n    z = fn(3000)\n    w = fn(4000)".data,
    language := "txt".data, startLine := 6, hash := "721c8bb2".data }

/-- Witness for claim C4 at the concrete document `docC4`: a retained
indented block and a fenced block for which the duplicate test indeed
fails. -/
theorem C4_witness :
    iBlkC4 ∈ retainedIndented (extractMarkdownCodeBlocks docC4) (extractIndentedCodeBlocks docC4)
    ∧ fBlkC4 ∈ extractMarkdownCodeBlocks docC4
    ∧ ¬(Nat.dist iBlkC4.startLine fBlkC4.startLine < 5
        ∧ hasSub fBlkC4.content (iBlkC4.content.take 100) = true) :=
  ⟨by decide, by decide,
    C4_no_duplicate_survives docC4 iBlkC4 fBlkC4 (by decide) (by decide)⟩

/-! ## Claim C3: the classifier's first-match semantics -/

/-- `detectLangGo` returns the fallback label exactly when no candidate
of the table (none of which uses the fallback label) has a matching
signature. -/
theorem detectLangGo_fallback_iff (c : List Char) :
    ∀ tbl : List (List Char × List (List Char → Bool)),
      (∀ e ∈ tbl, e.1 ≠ "txt".data) →
      (detectLangGo c tbl = "txt".data ↔ ∀ e ∈ tbl, anySig e c = false) := by
  intro tbl
  induction tbl with
  | nil =>
    intro _
    constructor
    · intro _ e he; exact absurd he (List.not_mem_nil e)
    · intro _; rfl
  | cons e rest ih =>
    intro hne
    simp only [detectLangGo]
    by_cases h : anySig e c = true
    · rw [if_pos h]
      constructor
      · intro he; exact absurd he (hne e (List.mem_cons_self e rest))
      · intro hall
        have := hall e (List.mem_cons_self e rest)
        rw [h] at this
        exact absurd this (by simp)
    · rw [if_neg h]
      rw [ih (fun e2 he2 => hne e2 (List.mem_cons_of_mem e he2))]
      constructor
      · intro hall e2 he2
        rcases List.mem_cons.mp he2 with rfl | h2
        · simpa using h
        · exact hall e2 h2
      · intro hall e2 he2
        exact hall e2 (List.mem_cons_of_mem e he2)

/-- `detectLangGo` returns the label of the first candidate any of whose
signatures matches. -/
theorem detectLangGo_first (c : List Char) :
    ∀ (pre : List (List Char × List (List Char → Bool))) e post,
      anySig e c = true → (∀ e2 ∈ pre, anySig e2 c = false) →
      detectLangGo c (pre ++ e :: post) = e.1 := by
  intro pre
  induction pre with
  | nil =>
    intro e post he _
    simp [detectLangGo, he]
  | cons p rest ih =>
    intro e post he hall
    have hp : anySig p c = false := hall p (List.mem_cons_self p rest)
    simp only [List.cons_append, detectLangGo]
    rw [if_neg (by simp [hp])]
    exact ih e post he (fun e2 h2 => hall e2 (List.mem_cons_of_mem p h2))

/-- Claim C3: the classifier iterates the fixed candidate order python,
javascript, java, c, cpp, html, css, sql, bash, dockerfile, json, yaml,
xml; it returns the label of the first candidate any of whose signatures
matches the content, and returns the fallback label `txt` if and only if
no candidate's signature matches. -/
theorem C3_classifier_first_match (c : List Char) :
    langTable.map Prod.fst =
      ["python".data, "javascript".data, "java".data, "c".data, "cpp".data, "html".data,
       "css".data, "sql".data, "bash".data, "dockerfile".data, "json".data, "yaml".data,
       "xml".data]
    ∧ (detectLanguage c = "txt".data ↔ ∀ e ∈ langTable, anySig e c = false)
    ∧ (∀ pre e post, langTable = pre ++ e :: post → anySig e c = true →
        (∀ e2 ∈ pre, anySig e2 c = false) → detectLanguage c = e.1) := by
  refine ⟨by rfl, detectLangGo_fallback_iff c langTable (by decide), ?_⟩
  intro pre e post htbl he hall
  unfold detectLanguage
  rw [htbl]
  exact detectLangGo_first c pre e post he hall

/-- The candidates before `c` in the table. -/
def preC3 : List (List Char × List (List Char → Bool)) := langTable.take 3

/-- The `c` candidate entry. -/
def eC3 : List Char × List (List Char → Bool) := ("c".data, [cSig1, cSig2, cSig3])

/-- The candidates after `c` in the table. -/
def postC3 : List (List Char × List (List Char → Bool)) := langTable.drop 4

/-- Witness for claim C3 at the concrete content `#include <stdio.h>`:
the `c` candidate matches, none of the earlier candidates does, and the
classifier returns `c` (also shadowing the later `cpp` candidate, which
shares the include signature). -/
theorem C3_witness :
    anySig eC3 "#include <stdio.h>".data = true
    ∧ (∀ e2 ∈ preC3, anySig e2 "#include <stdio.h>".data = false)
    ∧ detectLanguage "#include <stdio.h>".data = "c".data := by
  refine ⟨by decide, by decide, ?_⟩
  exact (C3_classifier_first_match "#include <stdio.h>".data).2.2 preC3 eC3 postC3 rfl
    (by decide) (by decide)

/-! ## Claim C9: files are index-aligned with blocks -/

/-- The descriptor list has one entry per block. -/
theorem buildFilesAux_length (l : List CodeBlock) : ∀ i, (buildFilesAux i l).length = l.length := by
  induction l with
  | nil => intro i; rfl
  | cons b rest ih => intro i; simp [buildFilesAux, ih]

/-- The `j`-th descriptor is built from the `j`-th block (and the running
1-based index). -/
theorem buildFilesAux_get (l : List CodeBlock) :
    ∀ (i j : Nat) (h : j < (buildFilesAux i l).length) (h2 : j < l.length),
      (buildFilesAux i l).get ⟨j, h⟩ = mkExtractedFile (i + j + 1) (l.get ⟨j, h2⟩) := by
  induction l with
  | nil => intro i j h h2; exact absurd h2 (by simp)
  | cons b rest ih =>
    intro i j h h2
    cases j with
    | zero => rfl
    | succ k =>
      have hk : k < (buildFilesAux (i + 1) rest).length := by
        simpa [buildFilesAux] using h
      have hk2 : k < rest.length := by simpa using h2
      show (buildFilesAux (i + 1) rest).get ⟨k, hk⟩ = _
      rw [ih (i + 1) k hk hk2]
      congr 1
      omega

/-- The `j`-th descriptor of `buildFiles` is built from the `j`-th block
and the 1-based index `j + 1`. -/
theorem buildFiles_get (l : List CodeBlock) (j : Nat) (h : j < (buildFiles l).length)
    (h2 : j < l.length) :
    (buildFiles l).get ⟨j, h⟩ = mkExtractedFile (j + 1) (l.get ⟨j, h2⟩) := by
  have := buildFilesAux_get l 0 j h h2
  simpa using this

/-- Claim C9: for every successful result, `files.length` equals the
number of extracted blocks, and the `j`-th file's `hash`, `content` and
`language` are exactly the `j`-th block's. -/
theorem C9_files_align (fn content : List Char) (st : Stats) (r : ExtractionOk) (st2 : Stats)
    (h : processFile fn (.ok content) st = (.ok r, st2)) :
    r.files.length = (extractCodeBlocks content).length
    ∧ ∀ (j : Nat) (h1 : j < r.files.length) (h2 : j < (extractCodeBlocks content).length),
        (r.files.get ⟨j, h1⟩).hash = ((extractCodeBlocks content).get ⟨j, h2⟩).hash
        ∧ (r.files.get ⟨j, h1⟩).content = ((extractCodeBlocks content).get ⟨j, h2⟩).content
        ∧ (r.files.get ⟨j, h1⟩).language = ((extractCodeBlocks content).get ⟨j, h2⟩).language := by
  have hfiles : r.files = buildFiles (extractCodeBlocks content) := by
    by_cases h0 : (extractCodeBlocks content).length = 0
    · simp [processFile, h0] at h
    · simp only [processFile, h0, if_false] at h
      obtain ⟨hok, -⟩ := Prod.mk.injEq .. |>.mp h
      cases hok
      rfl
  constructor
  · rw [hfiles]
    exact buildFilesAux_length _ 0
  · intro j h1 h2
    revert h1
    rw [hfiles]
    intro h1
    rw [buildFiles_get (extractCodeBlocks content) j h1 h2]
    exact ⟨rfl, rfl, rfl⟩

/-- Concrete document for the C9 witness: one tagged fenced block. -/
def docC9 : List Char := "```python\nimport sqlite3 and more stuff\n```\n".data

/-- The successful result of processing `docC9`. -/
def rC9 : ExtractionOk :=
  ((processFile "a.md".data (.ok docC9) initialStats).1.getOk).getD default

/-- The statistics after processing `docC9`. -/
def stC9 : Stats := (processFile "a.md".data (.ok docC9) initialStats).2

/-- Witness for claim C9 at the concrete document `docC9`. -/
theorem C9_witness :
    processFile "a.md".data (.ok docC9) initialStats = (.ok rC9, stC9)
    ∧ rC9.files.length = (extractCodeBlocks docC9).length :=
  ⟨by decide,
    (C9_files_align "a.md".data docC9 initialStats rC9 stC9 (by decide)).1⟩

/-! ## Claim C6: explicit fence tags bypass the classifier -/

/-- `takeWhile` only keeps characters satisfying the predicate. -/
theorem takeWhile_all_sat (p : Char → Bool) : ∀ l : List Char, (l.takeWhile p).all p = true := by
  intro l
  induction l with
  | nil => rfl
  | cons c t ih =>
    by_cases h : p c = true
    · simp [List.takeWhile_cons, h, ih]
    · simp [List.takeWhile_cons, h]

/-- A successful fenced match with a present tag has a non-empty all-word
tag (it is the maximal word-character run after the opening fence). -/
theorem matchFenceAt_tag :
    ∀ (s : List Char) (t body : List Char) (len : Nat),
      matchFenceAt s = some (some t, body, len) → t ≠ [] ∧ t.all isWordC = true := by
  intro s t body len h
  match s with
  | [] => simp [matchFenceAt] at h
  | [b1] => simp [matchFenceAt] at h
  | [b1, b2] => simp [matchFenceAt] at h
  | b1 :: b2 :: b3 :: rest =>
    simp only [matchFenceAt] at h
    split at h
    · split at h
      · split at h
        · simp only [Option.some.injEq, Prod.mk.injEq] at h
          obtain ⟨htag, -, -⟩ := h
          by_cases hw : rest.takeWhile isWordC = []
          · rw [if_pos hw] at htag
            exact absurd htag (by simp)
          · rw [if_neg hw] at htag
            obtain rfl := (Option.some.injEq .. |>.mp htag).symm
            exact ⟨hw, takeWhile_all_sat isWordC rest⟩
        · exact absurd h (by simp)
      · exact absurd h (by simp)
    · exact absurd h (by simp)

/-- Every match emitted by the `exec` loop is one of the position-ordered
candidates. -/
theorem execFilter_mem :
    ∀ (l : List (Nat × Option (List Char) × List Char × Nat)) (last : Nat) (m : FenceMatch),
      m ∈ execFilter last l → ∃ len, (m.idx, m.tag, m.body, len) ∈ l := by
  intro l
  induction l with
  | nil => intro last m hm; simp [execFilter] at hm
  | cons cand rest ih =>
    intro last m hm
    obtain ⟨i, tag, body, len⟩ := cand
    simp only [execFilter] at hm
    split at hm
    · rcases List.mem_cons.mp hm with rfl | hm2
      · exact ⟨len, List.mem_cons_self _ _⟩
      · obtain ⟨len2, h2⟩ := ih (i + len) m hm2
        exact ⟨len2, List.mem_cons_of_mem _ h2⟩
    · obtain ⟨len2, h2⟩ := ih last m hm
      exact ⟨len2, List.mem_cons_of_mem _ h2⟩

/-- Every candidate comes from a successful `matchFenceAt` at some
suffix. -/
theorem fenceCandidates_mem :
    ∀ (s : List Char) (i0 i : Nat) (tag : Option (List Char)) (body : List Char) (len : Nat),
      (i, tag, body, len) ∈ fenceCandidates s i0 →
      ∃ s2 : List Char, matchFenceAt s2 = some (tag, body, len) := by
  intro s
  induction s with
  | nil => intro i0 i tag body len hm; simp [fenceCandidates] at hm
  | cons c t ih =>
    intro i0 i tag body len hm
    simp only [fenceCandidates] at hm
    rcases List.mem_append.mp hm with h1 | h2
    · revert h1
      split
      next tag2 body2 len2 heq =>
        intro h1
        have h := List.mem_singleton.mp h1
        obtain ⟨-, rfl, rfl, rfl⟩ : i = i0 ∧ tag = tag2 ∧ body = body2 ∧ len = len2 := by
          simpa [Prod.ext_iff] using h
        exact ⟨c :: t, heq⟩
      next => intro h1; simp at h1
    · exact ih (i0 + 1) i tag body len h2

/-- Every emitted fenced match comes from a successful `matchFenceAt`. -/
theorem scanFenced_mem (s : List Char) (m : FenceMatch) (hm : m ∈ scanFenced s) :
    ∃ (s2 : List Char) (len : Nat), matchFenceAt s2 = some (m.tag, m.body, len) := by
  obtain ⟨len, hc⟩ := execFilter_mem (fenceCandidates s 0) 0 m hm
  obtain ⟨s2, h2⟩ := fenceCandidates_mem s 0 m.idx m.tag m.body len hc
  exact ⟨s2, len, h2⟩

/-- Claim C6: every block of the fenced scanner comes from a raw match;
a match with a present tag (always a non-empty word) yields a block
whose language is that literal tag, bypassing the classifier; only an
untagged match runs the classifier (on the trimmed body). -/
theorem C6_fenced_tag (s : List Char) :
    (∀ b ∈ extractMarkdownCodeBlocks s, ∃ m ∈ scanFenced s, b = fencedBlockOf s m)
    ∧ (∀ m ∈ scanFenced s, ∀ t, m.tag = some t →
        t ≠ [] ∧ t.all isWordC = true ∧ (fencedBlockOf s m).language = t)
    ∧ (∀ m ∈ scanFenced s, m.tag = none →
        (fencedBlockOf s m).language = detectLanguage (trimJS m.body)) := by
  refine ⟨?_, ?_, ?_⟩
  · intro b hb
    obtain ⟨m, hm, hf⟩ := List.mem_filterMap.mp hb
    refine ⟨m, hm, ?_⟩
    by_cases hc : trimJS m.body ≠ [] ∧ (trimJS m.body).length > 20
    · rw [if_pos hc] at hf
      exact (Option.some.injEq .. |>.mp hf).symm
    · rw [if_neg hc] at hf
      exact absurd hf (by simp)
  · intro m hm t htag
    obtain ⟨s2, len, hmatch⟩ := scanFenced_mem s m hm
    rw [htag] at hmatch
    obtain ⟨ht1, ht2⟩ := matchFenceAt_tag s2 t m.body len hmatch
    refine ⟨ht1, ht2, ?_⟩
    show (mkCodeBlock m.body m.tag (splitLines (s.take m.idx)).length).language = t
    rw [htag]
    show (if t = [] then detectLanguage (trimJS m.body) else t) = t
    rw [if_neg ht1]
  · intro m hm htag
    show (mkCodeBlock m.body m.tag (splitLines (s.take m.idx)).length).language = _
    rw [htag]
    rfl

/-- Concrete document for the C6 witness. -/
def docC6 : List Char := "```python\nimport sqlite3 and more stuff\n```".data

/-- The fenced match of `docC6`. -/
def mC6 : FenceMatch := (scanFenced docC6).headD default

/-- Witness for claim C6 at the concrete document `docC6`: the tagged
fenced block keeps the literal tag `python`. -/
theorem C6_witness :
    mC6 ∈ scanFenced docC6
    ∧ mC6.tag = some "python".data
    ∧ (fencedBlockOf docC6 mC6).language = "python".data := by
  refine ⟨by decide, by decide, ?_⟩
  exact ((C6_fenced_tag docC6).2.1 mC6 (by decide) "python".data (by decide)).2.2

/-! ## Claim C8: the indented-run emission conditions -/

/-- A list trims to empty exactly when all its characters are
whitespace. -/
theorem trimJS_eq_nil_iff (l : List Char) : trimJS l = [] ↔ ∀ c ∈ l, isWsC c = true := by
  have key : trimJS l = [] ↔ ∀ c ∈ l.dropWhile isWsC, isWsC c = true := by
    unfold trimJS
    rw [List.reverse_eq_nil_iff, List.dropWhile_eq_nil_iff]
    constructor
    · intro h c hc
      exact h c (List.mem_reverse.mpr hc)
    · intro h c hc
      exact h c (List.mem_reverse.mp hc)
  rw [key]
  constructor
  · intro h c hc
    have hsplit := List.takeWhile_append_dropWhile (p := isWsC) (l := l)
    rcases List.mem_append.mp (by rw [hsplit]; exact hc) with h1 | h2
    · exact List.mem_takeWhile_imp h1
    · exact h c h2
  · intro h c hc
    refine h c ?_
    rw [← List.takeWhile_append_dropWhile (p := isWsC) (l := l)]
    exact List.mem_append_right _ hc

/-- Every character of a joined line list is a newline or a character of
one of the lines. -/
theorem mem_joinLines : ∀ (r : List (List Char)) (c : Char), c ∈ joinLines r → c = '\n' ∨ ∃ l ∈ r, c ∈ l := by
  intro r
  induction r with
  | nil => intro c hc; simp [joinLines] at hc
  | cons l ls ih =>
    intro c hc
    cases ls with
    | nil =>
      simp only [joinLines] at hc
      exact Or.inr ⟨l, by simp, hc⟩
    | cons l2 ls2 =>
      simp only [joinLines] at hc
      rcases List.mem_append.mp hc with h1 | h2
      · exact Or.inr ⟨l, by simp, h1⟩
      · rcases List.mem_cons.mp h2 with rfl | h3
        · exact Or.inl rfl
        · rcases ih c h3 with h4 | ⟨l3, hl3, hcl3⟩
          · exact Or.inl h4
          · exact Or.inr ⟨l3, List.mem_cons_of_mem _ hl3, hcl3⟩

/-- Concrete document for the C8 scenario: a 3-line indented snippet
whose trimmed content has exactly 40 characters. -/
def docC8 : List Char := "    x = alpha(10)\n    y = beta(5)\n    z=g(1)\n".data

/-- Claim C8: a terminated indented run produces a block if and only if
it spans more than 3 physical lines, its trimmed content is longer than
50 characters, and at least 2 code-likelihood signature categories match
the content; and the concrete 3-line 40-character snippet yields zero
blocks. -/
theorem C8_indented_run_iff (run : List (List Char)) (start : Nat) :
    (finishRun run start ≠ [] ↔
      run.length > 3 ∧ (trimJS (joinLines run)).length > 50
        ∧ 2 ≤ codeSigCount (trimJS (joinLines run)))
    ∧ extractIndentedCodeBlocks docC8 = [] := by
  constructor
  · constructor
    · intro hne
      simp only [finishRun] at hne
      split at hne
      · split at hne
        · split at hne
          · next hcond hlook =>
            refine ⟨hcond.2.1, hcond.2.2, ?_⟩
            have := of_decide_eq_true hlook
            exact this
          · exact absurd rfl hne
        · exact absurd rfl hne
      · exact absurd rfl hne
    · intro ⟨h1, h2, h3⟩
      have hbc : trimJS (joinLines run) ≠ [] := by
        intro h0
        rw [h0] at h2
        simp at h2
      have hsome : run.any (fun l => !(trimJS l).isEmpty) = true := by
        by_contra hall
        rw [Bool.not_eq_true] at hall
        have hallws : ∀ c ∈ joinLines run, isWsC c = true := by
          intro c hc
          rcases mem_joinLines run c hc with rfl | ⟨l, hl, hcl⟩
          · rfl
          · have hline : (!(trimJS l).isEmpty) = false := by
              have := List.any_eq_false.mp hall
              simpa using this l hl
            have : trimJS l = [] := by
              simpa [List.isEmpty_iff] using hline
            exact (trimJS_eq_nil_iff l).mp this c hcl
        exact hbc ((trimJS_eq_nil_iff _).mpr hallws)
      simp only [finishRun]
      rw [if_pos ⟨by omega, hsome⟩]
      rw [if_pos ⟨hbc, h1, h2⟩]
      rw [if_pos (show looksLikeCode (trimJS (joinLines run)) = true from decide_eq_true h3)]
      simp
  · decide

/-! ## Claim C2: what `startLine` actually is -/

/-- Splitting never yields an empty line list. -/
theorem splitLines_ne_nil : ∀ l : List Char, splitLines l ≠ [] := by
  intro l
  induction l with
  | nil => simp [splitLines]
  | cons c t ih =>
    by_cases h : c = '\n'
    · simp [splitLines, h]
    · simp only [splitLines, if_neg h]
      cases hs : splitLines t with
      | nil => exact absurd hs ih
      | cons a as => simp

/-- The number of lines is the newline count plus one, so the length of
`split('\n')` of a prefix is the 1-based line number of the position
right after that prefix. -/
theorem splitLines_length : ∀ l : List Char, (splitLines l).length = l.count '\n' + 1 := by
  intro l
  induction l with
  | nil => rfl
  | cons c t ih =>
    by_cases h : c = '\n'
    · subst h
      simp [splitLines, ih, List.count_cons]
    · simp only [splitLines, if_neg h]
      cases hs : splitLines t with
      | nil => exact absurd hs (splitLines_ne_nil t)
      | cons a as =>
        simp only [List.length_cons]
        rw [hs] at ih
        simp only [List.length_cons] at ih
        have hc : (c :: t).count '\n' = t.count '\n' := by
          simp [List.count_cons, h]
        omega

/-- A block emitted at run termination is exactly the block built from
the trimmed joined run at the recorded start, and only a non-empty run
emits. -/
theorem finishRun_sound (run : List (List Char)) (start : Nat) (b : CodeBlock)
    (hb : b ∈ finishRun run start) :
    b = mkCodeBlock (trimJS (joinLines run)) none start ∧ run ≠ [] := by
  simp only [finishRun] at hb
  split at hb
  · next hcond =>
    split at hb
    · split at hb
      · rcases List.mem_singleton.mp hb with rfl
        refine ⟨rfl, ?_⟩
        intro h0
        rw [h0] at hcond
        simp at hcond
      · simp at hb
    · simp at hb
  · simp at hb

/-- The loop invariant of the indented scanner over the full line list
`L`: while a run is open, `currentStart` and the current index delimit
it exactly — the run is the contiguous slice of `L` beginning at
`currentStart` and reaching up to the current line, and its first line
is indented.  Hence every emitted block is built from the `run.length`
consecutive lines of `L` starting at its own `startLine`. -/
theorem indentAux_run_sound (L : List (List Char)) :
    ∀ (ls : List (List Char)) (i : Nat) (run : List (List Char)) (start : Nat),
      ls = L.drop i →
      i ≤ L.length →
      (run ≠ [] →
        start + run.length = i
        ∧ run = (L.drop start).take run.length
        ∧ isIndentedLine (L.getD start []) = true) →
      ∀ b ∈ indentAux ls i run start,
        ∃ n : Nat, 0 < n
          ∧ b.startLine + n ≤ L.length
          ∧ b = mkCodeBlock (trimJS (joinLines ((L.drop b.startLine).take n))) none b.startLine
          ∧ isIndentedLine (L.getD b.startLine []) = true := by
  intro ls
  induction ls with
  | nil =>
    intro i run start hls hi hinv b hb
    obtain ⟨hbform, hrun⟩ := finishRun_sound run start b hb
    obtain ⟨h1, h2, h3⟩ := hinv hrun
    subst hbform
    refine ⟨run.length, List.length_pos.mpr hrun, ?_, ?_, h3⟩
    · show start + run.length ≤ L.length
      omega
    · show mkCodeBlock (trimJS (joinLines run)) none start
        = mkCodeBlock (trimJS (joinLines ((L.drop start).take run.length))) none start
      rw [← h2]
  | cons l rest ih =>
    intro i run start hls hi hinv b hb
    have hiL : i < L.length := by
      by_contra hcon
      push_neg at hcon
      rw [List.drop_eq_nil_iff.mpr hcon] at hls
      exact absurd hls (by simp)
    have hrest : rest = L.drop (i + 1) := by
      have h := List.drop_drop 1 i L
      rw [← hls] at h
      simpa using h
    have hgetl : L.getD i [] = l := by
      have h := List.getElem?_drop L i 0
      rw [← hls] at h
      simp only [List.getElem?_cons_zero, Nat.add_zero] at h
      rw [List.getD_eq_getElem?_getD, ← h]
      rfl
    simp only [indentAux] at hb
    split at hb
    · next hcond =>
      refine ih (i + 1) (run ++ [l]) (if run.length = 0 then i else start) hrest
        (by omega) ?_ b hb
      intro _
      by_cases hr : run.length = 0
      · rw [if_pos hr]
        have hrnil : run = [] := List.length_eq_zero.mp hr
        subst hrnil
        have hl : isIndentedLine l = true := by
          rcases hcond with h | ⟨-, hlen⟩
          · exact h
          · simp at hlen
        refine ⟨by simp, ?_, ?_⟩
        · simp [← hls]
        · rw [hgetl]
          exact hl
      · rw [if_neg hr]
        have hrun : run ≠ [] := by
          intro h0
          rw [h0] at hr
          simp at hr
        obtain ⟨h1, h2, h3⟩ := hinv hrun
        refine ⟨?_, ?_, h3⟩
        · simp only [List.length_append, List.length_cons, List.length_nil]
          omega
        · have hdropstart : (L.drop start).drop run.length = l :: rest := by
            rw [List.drop_drop]
            rw [h1]
            exact hls.symm
          have hlen2 : (run ++ [l]).length = run.length + 1 := by simp
          rw [hlen2, List.take_add, hdropstart, ← h2]
          simp
    · rcases List.mem_append.mp hb with hmem | hmem
      · obtain ⟨hbform, hrun⟩ := finishRun_sound run start b hmem
        obtain ⟨h1, h2, h3⟩ := hinv hrun
        subst hbform
        refine ⟨run.length, List.length_pos.mpr hrun, ?_, ?_, h3⟩
        · show start + run.length ≤ L.length
          omega
        · show mkCodeBlock (trimJS (joinLines run)) none start
            = mkCodeBlock (trimJS (joinLines ((L.drop start).take run.length))) none start
          rw [← h2]
      · refine ih (i + 1) [] start hrest (by omega) ?_ b hmem
        intro h0
        exact absurd rfl h0

/-- Claim C2, amended: a fenced block's `startLine` is the 1-based line
number of the match start (the newline count before the match plus one),
while an indented block's `startLine` is the 0-based index of its own
run's first line — one less than the 1-based line number: the block is
built exactly from the `n ≥ 1` consecutive document lines beginning at
index `startLine`, and the line at that index is indented. -/
theorem C2_amended_startLine (s : List Char) :
    (∀ b ∈ extractMarkdownCodeBlocks s, ∃ m ∈ scanFenced s,
        b = fencedBlockOf s m ∧ b.startLine = (s.take m.idx).count '\n' + 1)
    ∧ (∀ b ∈ extractIndentedCodeBlocks s, ∃ n : Nat,
        0 < n
        ∧ b.startLine + n ≤ (splitLines s).length
        ∧ b = mkCodeBlock (trimJS (joinLines (((splitLines s).drop b.startLine).take n)))
            none b.startLine
        ∧ isIndentedLine ((splitLines s).getD b.startLine []) = true) := by
  constructor
  · intro b hb
    obtain ⟨m, hm, hf⟩ := List.mem_filterMap.mp hb
    have hbf : b = fencedBlockOf s m := by
      by_cases hc : trimJS m.body ≠ [] ∧ (trimJS m.body).length > 20
      · rw [if_pos hc] at hf
        exact (Option.some.injEq .. |>.mp hf).symm
      · rw [if_neg hc] at hf
        exact absurd hf (by simp)
    refine ⟨m, hm, hbf, ?_⟩
    rw [hbf]
    show (splitLines (s.take m.idx)).length = (s.take m.idx).count '\n' + 1
    exact splitLines_length _
  · intro b hb
    refine indentAux_run_sound (splitLines s) (splitLines s) 0 [] 0
      (List.drop_zero _).symm (Nat.zero_le _) ?_ b hb
    intro h0
    exact absurd rfl h0

/-- Concrete document for the C2 counterexample and witness: its only
code span is an indented run starting on the document's first line. -/
def docC2 : List Char :=
  "    x = fn(1000)\n    y = fn(2000)\n    z = fn(3000)\n    w = fn(4000)\nend".data

/-- Counterexample to claim C2 as stated: the indented block whose span
starts on the document's first line has `startLine = 0`, not 1 — the
indented scanner records the 0-based loop index, not the 1-based line
number. -/
theorem C2_counterexample :
    (extractIndentedCodeBlocks docC2).map CodeBlock.startLine = [0] ∧ (0 : Nat) ≠ 1 :=
  ⟨by decide, by decide⟩

/-- The indented block of `docC2`. -/
def bC2 : CodeBlock := (extractIndentedCodeBlocks docC2).headD default

/-- Witness for the amended claim C2 at the concrete document `docC2`:
its indented block is built from the 4 consecutive lines starting at its
own `startLine`. -/
theorem C2_amended_witness :
    bC2 ∈ extractIndentedCodeBlocks docC2
    ∧ ∃ n : Nat, 0 < n
        ∧ bC2.startLine + n ≤ (splitLines docC2).length
        ∧ bC2 = mkCodeBlock (trimJS (joinLines (((splitLines docC2).drop bC2.startLine).take n)))
            none bC2.startLine
        ∧ isIndentedLine ((splitLines docC2).getD bC2.startLine []) = true :=
  ⟨by decide, (C2_amended_startLine docC2).2 bC2 (by decide)⟩

/-! ## Claim C7: topic derivation -/

/-- Concrete document for the C7 counterexample: a heading containing a
hyphen. -/
def docC7h : List Char := "# Data-Base Setup\n".data

/-- Counterexample to claim C7 as stated: hyphens are not stripped from
the matched heading text (the replace class keeps word characters,
whitespace and hyphens), so the topic is `Data-Base_Setup` rather than
the hyphen-free text the claim's description produces. -/
theorem C7_counterexample :
    generateTopicName "n.txt".data docC7h = "Data-Base_Setup".data
    ∧ "Data-Base_Setup".data ≠ "DataBase_Setup".data
    ∧ "Data-Base_Setup".data ≠ "DataBaseSetup".data :=
  ⟨by decide, by decide, by decide⟩

/-- Concrete document for the C7 scenario: a heading followed by two
fenced blocks. -/
def docC7 : List Char :=
  "# Database Setup Discussion\n```sql\nSELECT name FROM users order by id;\n```\n```python\nimport os and sys modules now\n```\n".data

/-- Claim C7, amended: the topic is derived by trying, in priority
order, a top-level heading, a second-level heading, a `Title:` line and
a `Subject:` line; the first match's text has the characters other than
word characters, whitespace and hyphens stripped, is trimmed, has
whitespace runs collapsed to underscores and is truncated to 50
characters; with no match the topic is the filename with its extension
removed, and if that is empty it is the literal `unknown_topic`.  The
document opening with `# Database Setup Discussion` gets topic
`Database_Setup_Discussion`. -/
theorem C7_amended_topic (fn c : List Char) :
    titlePatternList =
      [("#".data, true), ("##".data, true), ("Title:".data, false), ("Subject:".data, false)]
    ∧ (topicGo c titlePatternList = none →
        generateTopicName fn c =
          (if stripExtension fn = [] then "unknown_topic".data else stripExtension fn))
    ∧ (∀ cap, topicGo c titlePatternList = some cap →
        generateTopicName fn c = (collapseWs (trimJS (cap.filter keepTopicChar))).take 50)
    ∧ generateTopicName "notes.txt".data docC7 = "Database_Setup_Discussion".data := by
  refine ⟨rfl, ?_, ?_, by decide⟩
  · intro h
    simp [generateTopicName, h]
  · intro cap h
    simp [generateTopicName, h, processTopic]

/-- The captured heading text of `docC7`. -/
def capC7 : List Char := "Database Setup Discussion".data

/-- Witness for the amended claim C7 at the concrete document `docC7`. -/
theorem C7_amended_witness :
    topicGo docC7 titlePatternList = some capC7
    ∧ generateTopicName "notes.txt".data docC7
        = (collapseWs (trimJS (capC7.filter keepTopicChar))).take 50 := by
  refine ⟨by decide, ?_⟩
  exact (C7_amended_topic "notes.txt".data docC7).2.2.1 capC7 (by decide)
